import Mathlib

/-!
Verification of the FAT32 shell `mfs.c` (kevvinn/FAT32-Assignment).

The program is shallowly embedded as follows.  A disk image is a function
`Int → Nat` giving the byte stored at every file offset (values are read
modulo 256).  The in-memory state after `open` is an `MfsState`: the parsed
BPB geometry (`F32Info`, with the signed C integer fields modelled as `Int`),
the 16-entry directory cache kept as its raw 512 bytes (`List Nat`), the
original-name memory, and the image.  C strings are lists of bytes with the
terminating NUL left implicit (reading past the end of a list yields 0,
matching the terminator).  Loops that the C code drives with a decreasing
counter are translated with an explicit fuel argument that is provably
sufficient whenever the corresponding C loop terminates.
-/

set_option maxRecDepth 100000

/-- Byte of an image at an offset; reads are normalized to one byte. -/
def imgByte (img : Int → Nat) (a : Int) : Nat := img a % 256

/-- Two-byte little-endian read, as done by `fread(&x, 2, 1, fp)` into a
16-bit field on a little-endian host. -/
def readLE16 (img : Int → Nat) (a : Int) : Nat :=
  imgByte img a + 256 * imgByte img (a + 1)

/-- Four-byte little-endian read. -/
def readLE32 (img : Int → Nat) (a : Int) : Nat :=
  readLE16 img a + 65536 * readLE16 img (a + 2)

/-- Reinterpret a bit pattern as a signed 16-bit value (`int16_t`). -/
def toInt16 (n : Nat) : Int :=
  if n % 65536 < 32768 then (n % 65536 : Nat) else (n % 65536 : Nat) - 65536

/-- Reinterpret a bit pattern as a signed 8-bit value (`int8_t`). -/
def toInt8 (n : Nat) : Int :=
  if n % 256 < 128 then (n % 256 : Nat) else (n % 256 : Nat) - 256

/-- Reinterpret a bit pattern as a signed 32-bit value (`int32_t`). -/
def toInt32 (n : Nat) : Int :=
  if n % 4294967296 < 2147483648 then (n % 4294967296 : Nat)
  else (n % 4294967296 : Nat) - 4294967296

/-- C conversion of a signed `int` value to `uint32_t` (reduction mod 2^32). -/
def intToUint32 (x : Int) : Nat := (x % 4294967296).toNat

/-- Read `n` consecutive bytes starting at offset `off`. -/
def readBlock (img : Int → Nat) (off : Int) (n : Nat) : List Nat :=
  (List.range n).map (fun k => imgByte img (off + k))

/-- Overwrite the image with `block` starting at offset `off`
(the effect of `fseek(fp, off, SEEK_SET); fwrite(block, ...)`). -/
def writeBlockToImg (img : Int → Nat) (off : Int) (block : List Nat) : Int → Nat :=
  fun a => if off ≤ a ∧ a < off + block.length then block.getD (a - off).toNat 0 else img a

/-- ASCII-only `toupper`, as in the C locale. -/
def toupperB (c : Nat) : Nat := if 97 ≤ c ∧ c ≤ 122 then c - 32 else c

/-- Truth of `strncmp(s1, s2, n) == 0`: the first `n` bytes agree, where comparison
stops early at a common NUL.  List ends stand for the terminating NUL. -/
def strncmpEq : List Nat → List Nat → Nat → Bool
  | _, _, 0 => true
  | s1, s2, n + 1 =>
    let c1 := s1.headD 0
    let c2 := s2.headD 0
    if c1 = c2 then (if c1 = 0 then true else strncmpEq s1.tail s2.tail n)
    else false

/-- The `n` bytes `strncpy(dst, src, n)` stores: the prefix of `src` up to
its first NUL, NUL-padded to exactly `n` bytes. -/
def strncpyFixed (src : List Nat) (n : Nat) : List Nat :=
  (src.takeWhile (fun b => b ≠ 0) ++ List.replicate n 0).take n

/-- Overwrite `buf` with `src` starting at position `pos` (a bounded
`strncpy`/`memcpy` into the middle of a buffer). -/
def writeBytes (buf : List Nat) (pos : Nat) (src : List Nat) : List Nat :=
  buf.take pos ++ src ++ buf.drop (pos + src.length)

/-- The BPB fields read by `openFat32File`, with the C signed integer types
modelled as mathematical integers holding the reinterpreted values. -/
structure F32Info where
  BS_OEMName : List Nat
  BPB_BytsPerSec : Int
  BPB_SecPerClus : Int
  BPB_RsvdSecCnt : Int
  BPB_NumFATS : Int
  BPB_RootEntCnt : Int
  BS_VolLab : List Nat
  BPB_FATSz32 : Int
  BPB_RootClus : Int
deriving Repr, DecidableEq

/-- Model of `LBAToOffset`: starting byte address of the data block of cluster
`sector` (C: `((sector-2)*BytsPerSec) + (BytsPerSec*RsvdSecCnt) +
(NumFATS*FATSz32*BytsPerSec)`). -/
def LBAToOffset (f : F32Info) (sector : Int) : Int :=
  (sector - 2) * f.BPB_BytsPerSec + f.BPB_BytsPerSec * f.BPB_RsvdSecCnt
    + f.BPB_NumFATS * f.BPB_FATSz32 * f.BPB_BytsPerSec

/-- The `uint32_t FATAddress` computed by `NextLB`: the `int` product
`BytsPerSec * RsvdSecCnt` is converted to `uint32_t` and added to
`sector * 4` in `uint32_t` arithmetic (mod 2^32). -/
def fatAddress (f : F32Info) (sector : Nat) : Nat :=
  (intToUint32 (f.BPB_BytsPerSec * f.BPB_RsvdSecCnt) + sector * 4) % 4294967296

/-- Model of `NextLB`: read two bytes at `fatAddress` and return them as `int16_t`.
`sector` is the `uint32_t` parameter value. -/
def NextLB (img : Int → Nat) (f : F32Info) (sector : Nat) : Int :=
  toInt16 (readLE16 img (fatAddress f sector))

/-- The first `strtok(input_name, ".")` token of `compare_filename`:
leading dot delimiters are skipped and the token runs to the next dot. -/
def strtokBase (input : List Nat) : List Nat :=
  (input.dropWhile (fun b => b == 46)).takeWhile (fun b => b != 46)

/-- The second `strtok(NULL, ".")` token of the name matcher (the
extension); the empty list models the NULL result when no further token
exists. -/
def strtokExt (input : List Nat) : List Nat :=
  ((((input.dropWhile (fun b => b == 46)).drop ((strtokBase input).length + 1)).dropWhile
    (fun b => b == 46)).takeWhile (fun b => b != 46))

/-- The 12-byte `expanded_name` buffer of the name matcher before
uppercasing: 12 spaces, the basename token copied in full at position 0,
then - when an extension token exists - `strncpy(expanded_name + 8,
token, 3)`. -/
def expandedName (input : List Nat) : List Nat :=
  if (strtokExt input).isEmpty then writeBytes (List.replicate 12 32) 0 (strtokBase input)
  else
    writeBytes (writeBytes (List.replicate 12 32) 0 (strtokBase input)) 8
      (strncpyFixed (strtokExt input) 3)

/-- Model of `compare_filename(input, IMG_Name)`.  `input` is the user token (a C
string, hence NUL-free), `imgName` the raw 11-byte on-disk name field.
Mirrors the source: a `..` prefix is compared directly; otherwise the
token is split by `strtok` at dots into `expandedName`, whose first 11
bytes are uppercased and compared by `strncmp(..., 11)`. -/
def compare_filename (input imgName : List Nat) : Bool :=
  if strncmpEq input [46, 46] 2 then
    strncmpEq input imgName 2
  else strncmpEq (((expandedName input).take 11).map toupperB) imgName 11

/-- The 11-byte name field of cache entry `i` (bytes `32*i .. 32*i+10`). -/
def entryName (cache : List Nat) (i : Nat) : List Nat :=
  (List.range 11).map (fun k => cache.getD (32 * i + k) 0)

/-- The attribute byte of cache entry `i` (byte `32*i + 11`). -/
def entryAttr (cache : List Nat) (i : Nat) : Nat := cache.getD (32 * i + 11) 0

/-- Field `DIR_FirstClusterHigh` of cache entry `i` (little-endian bytes at
`32*i + 20`). -/
def entryFirstClusterHigh (cache : List Nat) (i : Nat) : Nat :=
  cache.getD (32 * i + 20) 0 + 256 * cache.getD (32 * i + 21) 0

/-- Field `DIR_FirstClusterLow` of cache entry `i` (little-endian bytes at
`32*i + 26`). -/
def entryFirstClusterLow (cache : List Nat) (i : Nat) : Nat :=
  cache.getD (32 * i + 26) 0 + 256 * cache.getD (32 * i + 27) 0

/-- Field `DIR_FileSize` of cache entry `i` (little-endian bytes at `32*i + 28`). -/
def entryFileSize (cache : List Nat) (i : Nat) : Nat :=
  cache.getD (32 * i + 28) 0 + 256 * cache.getD (32 * i + 29) 0
    + 65536 * cache.getD (32 * i + 30) 0 + 16777216 * cache.getD (32 * i + 31) 0

/-- The scan of `find_file`, from index `i` with `rem` indices left to try
(the C loop runs `i = 0 .. 15`, so `find_file` starts it with `rem = 16`). -/
def findFrom (input cache : List Nat) : Nat → Nat → Option Nat
  | 0, _ => none
  | rem + 1, i =>
    if compare_filename input (entryName cache i) then some i
    else findFrom input cache rem (i + 1)

/-- Model of `find_file`: index of the first of the 16 cache entries whose name
matches `input`, `none` when the name does not resolve. -/
def find_file (input cache : List Nat) : Option Nat := findFrom input cache 16 0

/-- The in-memory session state after `open`: the parsed geometry, the raw
512 bytes of the 16-entry directory cache, the 16 original-name slots and
the image contents. -/
structure MfsState where
  cache : List Nat
  origNames : List (List Nat)
  f32 : F32Info
  img : Int → Nat

/-- Model of `openFat32File`: parse the BPB fields at their fixed offsets, load the
512-byte root directory block from `LBAToOffset(BPB_RootClus)`, and capture
the original names.  Note: as in the source, the capture loop copies
`dir[0].DIR_Name` into every one of the 16 slots (its body ignores the loop
index). -/
def openFat32File (img : Int → Nat) : MfsState :=
  let f : F32Info :=
    ⟨readBlock img 3 8,
     toInt16 (readLE16 img 11),
     toInt8 (imgByte img 13),
     toInt16 (readLE16 img 14),
     toInt8 (imgByte img 16),
     toInt16 (readLE16 img 17),
     readBlock img 71 11,
     toInt32 (readLE32 img 36),
     toInt32 (readLE32 img 44)⟩
  let cache := readBlock img (LBAToOffset f f.BPB_RootClus) 512
  ⟨cache, List.replicate 16 (strncpyFixed (cache.take 11) 11), f, img⟩

/-- The data `stat` prints for a found entry. -/
structure EntryInfo where
  name : List Nat
  attr : Nat
  fstClusterHigh : Nat
  fstClusterLow : Nat
  fileSize : Nat
deriving Repr, DecidableEq

/-- Model of `stat`: resolve the name and report the entry's fields (`none` is the
`File not found` case). -/
def stat (input cache : List Nat) : Option EntryInfo :=
  match find_file input cache with
  | none => none
  | some i =>
      some ⟨strncpyFixed (entryName cache i) 11, entryAttr cache i,
        entryFirstClusterHigh cache i, entryFirstClusterLow cache i,
        entryFileSize cache i⟩

/-- The attribute filter used by `ls` and `undel`: keep read-only files
(0x01), sub-directories (0x10) and archives (0x20). -/
def attrVisible (a : Nat) : Bool := a == 1 || a == 16 || a == 32

/-- Indices of the cache entries `ls` prints: attribute in
{0x01, 0x10, 0x20} and first name byte not the 0xE5 tombstone. -/
def lsIndices (cache : List Nat) : List Nat :=
  (List.range 16).filter (fun i =>
    attrVisible (entryAttr cache i) && cache.getD (32 * i) 0 != 229)

/-- Result message of `cd`. -/
inductive CdMsg where
  | notFound
  | notADirectory
  | ok
deriving Repr, DecidableEq

/-- Model of `cd`: resolve the name; fail when the entry's attribute byte is not
exactly 0x10; otherwise take `DIR_FirstClusterLow` (substituting
`BPB_RootClus` when it is 0) and reload the 512-byte cache from
`LBAToOffset` of that cluster. -/
def cd (input : List Nat) (s : MfsState) : MfsState × CdMsg :=
  match find_file input s.cache with
  | none => (s, CdMsg.notFound)
  | some i =>
      if entryAttr s.cache i ≠ 16 then (s, CdMsg.notADirectory)
      else
        let cluster : Int :=
          if entryFirstClusterLow s.cache i = 0 then s.f32.BPB_RootClus
          else (entryFirstClusterLow s.cache i : Int)
        ({ s with cache := readBlock s.img (LBAToOffset s.f32 cluster) 512 }, CdMsg.ok)

/-- Model of `del`: resolve the name, overwrite the entry's first name byte with
0xE5 in the cache, and rewrite all 16 cached entries (512 bytes) at
`LBAToOffset(BPB_RootClus)`.  The returned flag is false in the
`File not found` case. -/
def del (input : List Nat) (s : MfsState) : MfsState × Bool :=
  match find_file input s.cache with
  | none => (s, false)
  | some i =>
      let cache' := s.cache.set (32 * i) 229
      let img' := writeBlockToImg s.img (LBAToOffset s.f32 s.f32.BPB_RootClus) cache'
      ({ s with cache := cache', img := img' }, true)

/-- One iteration of the `undel` scan at index `i`: when the entry's
attribute is in {0x01, 0x10, 0x20} and the user token matches the
original-name slot `i`, restore the first name byte from that slot and
rewrite the 512-byte cache at the root-cluster offset. -/
def undelStep (input : List Nat) (orig : List (List Nat)) (f : F32Info)
    (acc : List Nat × (Int → Nat) × Bool) (i : Nat) :
    List Nat × (Int → Nat) × Bool :=
  if attrVisible (entryAttr acc.1 i) && compare_filename input (orig.getD i []) then
    let cache' := acc.1.set (32 * i) ((orig.getD i []).headD 0)
    (cache', writeBlockToImg acc.2.1 (LBAToOffset f f.BPB_RootClus) cache', true)
  else acc

/-- Model of `undel`: scan all 16 entries with `undelStep`; the returned flag is
false when no restoration occurred (`File not found`). -/
def undel (input : List Nat) (s : MfsState) : MfsState × Bool :=
  let r := (List.range 16).foldl (undelStep input s.origNames s.f32) (s.cache, s.img, false)
  (⟨r.1, s.origNames, s.f32, r.2.1⟩, r.2.2)

/-- The copy loop of `get` with explicit fuel (the C loop runs while
`working_size > sector_size`, so `working + 1` fuel suffices whenever
`0 < S`): read a sector from the current cluster, append it, and follow
`NextLB`; finally read the remaining `working` bytes. -/
def getLoop (img : Int → Nat) (f : F32Info) (S : Nat) :
    Nat → Nat → Int → List Nat
  | 0, working, sector => readBlock img (LBAToOffset f sector) working
  | fuel + 1, working, sector =>
    if 0 < S ∧ S < working then
      readBlock img (LBAToOffset f sector) S
        ++ getLoop img f S fuel (working - S) (NextLB img f (intToUint32 sector))
    else readBlock img (LBAToOffset f sector) working

/-- Sector size as a natural number (the loops below require it positive,
which is also what the C code needs to terminate). -/
def sectorSizeNat (f : F32Info) : Nat := f.BPB_BytsPerSec.toNat

/-- Model of `get`: resolve the name and stream `DIR_FileSize` bytes of the cluster
chain into a host file (returned as the produced byte list).  The image and
the session state are never written. -/
def getFile (input : List Nat) (s : MfsState) : Option (List Nat) :=
  match find_file input s.cache with
  | none => none
  | some i =>
      let size := entryFileSize s.cache i
      some (getLoop s.img s.f32 (sectorSizeNat s.f32) (size + 1) size
        ((entryFirstClusterLow s.cache i : Int)))

/-- The sector-skipping loop of `read_file` with explicit fuel (the C loop
runs while `position >= sector_size`; with `0 < S` it terminates and
`pos + 1` fuel suffices): subtract a sector size and follow `NextLB`.
Returns the remaining offset and the reached cluster. -/
def skipLoop (img : Int → Nat) (f : F32Info) (S : Nat) :
    Nat → Nat → Int → Nat × Int
  | 0, pos, sector => (pos, sector)
  | fuel + 1, pos, sector =>
    if 0 < S ∧ S ≤ pos then
      skipLoop img f S fuel (pos - S) (NextLB img f (intToUint32 sector))
    else (pos, sector)

/-- The byte-emitting loop of `read_file`: before each byte, when
`pos + idx` has reached the sector size, advance to `NextLB` and re-seek to
its start; then read one byte at the seek base plus the bytes read since
the seek.  `n` counts the bytes still to emit. -/
def emitLoop (img : Int → Nat) (f : F32Info) (S : Nat) :
    Nat → Int → Nat → Nat → List Nat
  | 0, _, _, _ => []
  | n + 1, sector, pos, idx =>
    if pos + idx = S then
      imgByte img (LBAToOffset f (NextLB img f (intToUint32 sector)))
        :: emitLoop img f S n (NextLB img f (intToUint32 sector)) 0 1
    else
      imgByte img (LBAToOffset f sector + ((pos + idx : Nat) : Int))
        :: emitLoop img f S n sector pos (idx + 1)

/-- Model of `read(name, position, num_bytes)`: resolve the name, skip whole sectors
with `skipLoop`, emit `len` bytes with `emitLoop` and terminate the output
with a newline.  `none` is the `File not found` case. -/
def read_file (input : List Nat) (pos len : Nat) (s : MfsState) : Option (List Nat) :=
  match find_file input s.cache with
  | none => none
  | some i =>
      let S := sectorSizeNat s.f32
      let start := skipLoop s.img s.f32 S (pos + 1) pos
        ((entryFirstClusterLow s.cache i : Int))
      some (emitLoop s.img s.f32 S len start.2 start.1 0 ++ [10])

/-- The cluster reached from `c` after `k` steps of the FAT walker (each
step converts the current signed `int` cluster to the `uint32_t` parameter
of `NextLB`). -/
def chainFrom (img : Int → Nat) (f : F32Info) (c : Int) : Nat → Int
  | 0 => c
  | k + 1 => NextLB img f (intToUint32 (chainFrom img f c k))

/-! ### Concrete fixtures -/

/-- The 11-byte on-disk name `ALPHA      `. -/
def nameALPHA : List Nat := [65, 76, 80, 72, 65, 32, 32, 32, 32, 32, 32]

/-- The 11-byte on-disk name `BRAVO      `. -/
def nameBRAVO : List Nat := [66, 82, 65, 86, 79, 32, 32, 32, 32, 32, 32]

/-- A 32-byte directory entry with the given name and attribute and all
other fields zero. -/
def entryOf (nm : List Nat) (attr : Nat) : List Nat :=
  nm ++ [attr] ++ List.replicate 20 0

/-- A root directory block holding the archive files `ALPHA` (entry 0) and
`BRAVO` (entry 1). -/
def rootBlockC : List Nat :=
  entryOf nameALPHA 32 ++ entryOf nameBRAVO 32 ++ List.replicate 448 0

/-- A concrete image: 512 bytes per sector, 1 reserved sector, 2 FATs of
1 sector each, root cluster 2 (so the root block lives at offset 1536). -/
def cImg : Int → Nat := fun a =>
  if a = 12 then 2 else if a = 14 then 1 else if a = 16 then 2
  else if a = 36 then 1 else if a = 44 then 2
  else if 1536 ≤ a ∧ a < 2048 then rootBlockC.getD (a - 1536).toNat 0
  else 0

/-- The user token `ALPHA`. -/
def tokALPHA : List Nat := [65, 76, 80, 72, 65]

/-- The user token `BRAVO`. -/
def tokBRAVO : List Nat := [66, 82, 65, 86, 79]

/-- A small geometry for witnesses: 512 bytes per sector, 32 reserved
sectors, 2 FATs of 100 sectors, root cluster 2. -/
def fW : F32Info := ⟨[], 512, 1, 32, 2, 0, [], 100, 2⟩

/-- A simple concrete image for witnesses. -/
def imgW : Int → Nat := fun a => a.toNat % 251

/-! ### Claim C2 -/

/-- Claim C2: for every cluster number `N`, `NextLB` reads exactly two
bytes little-endian from the image at byte offset
`reservedSectorCount * bytesPerSector + N * 4` and returns them
interpreted as a signed 16-bit value (stated under the geometry being
non-negative and the FAT address not wrapping past 2^32, which is what the
`uint32_t` arithmetic of the source needs to coincide with the
mathematical offset). -/
theorem nextLB_reads_signed16_at_fat_offset (img : Int → Nat) (f : F32Info) (N : Nat)
    (hS : 0 ≤ f.BPB_BytsPerSec) (hR : 0 ≤ f.BPB_RsvdSecCnt)
    (hbound : (f.BPB_BytsPerSec * f.BPB_RsvdSecCnt).toNat + N * 4 < 4294967296) :
    NextLB img f N =
      toInt16 (imgByte img (f.BPB_RsvdSecCnt * f.BPB_BytsPerSec + (N : Int) * 4)
        + 256 * imgByte img (f.BPB_RsvdSecCnt * f.BPB_BytsPerSec + (N : Int) * 4 + 1)) := by
  have hprod : 0 ≤ f.BPB_BytsPerSec * f.BPB_RsvdSecCnt := mul_nonneg hS hR
  have htn := Int.toNat_of_nonneg hprod
  have hlt : f.BPB_BytsPerSec * f.BPB_RsvdSecCnt < 4294967296 := by omega
  have hfa : fatAddress f N = (f.BPB_BytsPerSec * f.BPB_RsvdSecCnt).toNat + N * 4 := by
    unfold fatAddress intToUint32
    rw [Int.emod_eq_of_lt hprod hlt]
    exact Nat.mod_eq_of_lt hbound
  have haddr : ((fatAddress f N : Nat) : Int)
      = f.BPB_RsvdSecCnt * f.BPB_BytsPerSec + (N : Int) * 4 := by
    rw [hfa]; push_cast [htn]; ring
  unfold NextLB readLE16
  rw [haddr]

/-- Witness for C2 at a concrete geometry and cluster. -/
theorem nextLB_reads_signed16_at_fat_offset_witness :
    (0 ≤ fW.BPB_BytsPerSec) ∧ (0 ≤ fW.BPB_RsvdSecCnt)
      ∧ ((fW.BPB_BytsPerSec * fW.BPB_RsvdSecCnt).toNat + 9 * 4 < 4294967296)
      ∧ NextLB imgW fW 9 =
        toInt16 (imgByte imgW (fW.BPB_RsvdSecCnt * fW.BPB_BytsPerSec + (9 : Int) * 4)
          + 256 * imgByte imgW (fW.BPB_RsvdSecCnt * fW.BPB_BytsPerSec + (9 : Int) * 4 + 1)) :=
  ⟨by decide, by decide, by decide,
    nextLB_reads_signed16_at_fat_offset imgW fW 9 (by decide) (by decide) (by decide)⟩

/-! ### Claim C3 -/

/-- Claim C3: for every cluster `N ≥ 2` and every parsed geometry,
`LBAToOffset(N)` equals `(N−2)·S + R·S + F·Z·S` with `S` the bytes per
sector, `R` the reserved sector count, `F` the number of FATs and `Z` the
FAT size. -/
theorem lbaToOffset_equals_data_region_formula (f : F32Info) (N : Int) (h : 2 ≤ N) :
    LBAToOffset f N =
      (N - 2) * f.BPB_BytsPerSec + f.BPB_RsvdSecCnt * f.BPB_BytsPerSec
        + f.BPB_NumFATS * f.BPB_FATSz32 * f.BPB_BytsPerSec := by
  unfold LBAToOffset; ring

/-- Witness for C3 at a concrete geometry and cluster. -/
theorem lbaToOffset_equals_data_region_formula_witness :
    (2 ≤ (7 : Int)) ∧ LBAToOffset fW 7 =
      ((7 : Int) - 2) * fW.BPB_BytsPerSec + fW.BPB_RsvdSecCnt * fW.BPB_BytsPerSec
        + fW.BPB_NumFATS * fW.BPB_FATSz32 * fW.BPB_BytsPerSec :=
  ⟨by decide, lbaToOffset_equals_data_region_formula fW 7 (by decide)⟩

/-! ### Claim C4 -/

/-- Claim C4: when `cd(name)` resolves an entry, it fails with
`NotADirectory` exactly when the matched entry's attribute byte differs
from 0x10; otherwise it takes the entry's `firstClusterLow`, substitutes
`BPB_RootClus` when that value is 0, and replaces the 16-entry directory
cache with the 16 × 32 bytes read from `LBAToOffset` of that cluster. -/
theorem cd_attr_check_and_cache_reload (input : List Nat) (s : MfsState) (i : Nat)
    (hfind : find_file input s.cache = some i) :
    ((cd input s).2 = CdMsg.notADirectory ↔ entryAttr s.cache i ≠ 16)
      ∧ (entryAttr s.cache i ≠ 16 → (cd input s).1 = s)
      ∧ (entryAttr s.cache i = 16 →
          (cd input s).2 = CdMsg.ok
            ∧ (cd input s).1.cache =
                readBlock s.img
                  (LBAToOffset s.f32
                    (if entryFirstClusterLow s.cache i = 0 then s.f32.BPB_RootClus
                     else (entryFirstClusterLow s.cache i : Int))) 512) := by
  unfold cd
  rw [hfind]
  by_cases h : entryAttr s.cache i = 16
  · simp [h]
  · simp [h]

/-- Witness for C4: `cd ALPHA` on the concrete image hits a non-directory
entry (attribute 0x20). -/
theorem cd_attr_check_and_cache_reload_witness :
    find_file tokALPHA (openFat32File cImg).cache = some 0
      ∧ (((cd tokALPHA (openFat32File cImg)).2 = CdMsg.notADirectory
            ↔ entryAttr (openFat32File cImg).cache 0 ≠ 16)
          ∧ (entryAttr (openFat32File cImg).cache 0 ≠ 16 →
              (cd tokALPHA (openFat32File cImg)).1 = openFat32File cImg)
          ∧ (entryAttr (openFat32File cImg).cache 0 = 16 →
              (cd tokALPHA (openFat32File cImg)).2 = CdMsg.ok
                ∧ (cd tokALPHA (openFat32File cImg)).1.cache =
                    readBlock (openFat32File cImg).img
                      (LBAToOffset (openFat32File cImg).f32
                        (if entryFirstClusterLow (openFat32File cImg).cache 0 = 0
                         then (openFat32File cImg).f32.BPB_RootClus
                         else (entryFirstClusterLow (openFat32File cImg).cache 0 : Int))) 512)) :=
  ⟨by decide, cd_attr_check_and_cache_reload tokALPHA (openFat32File cImg) 0 (by decide)⟩

/-! ### Claim C7 -/

/-- Claim C7: after a successful `del(X)`, the cached copy has X's first
name byte set to 0xE5, the image bytes starting at
`LBAToOffset(BPB_RootClus)` equal that entire 512-byte cached block —
regardless of which directory the cache currently holds — and no image
byte outside that 512-byte window is changed. -/
theorem del_rewrites_whole_block_at_rootclus (input : List Nat) (s : MfsState) (i : Nat)
    (hfind : find_file input s.cache = some i) (hlen : s.cache.length = 512) :
    (del input s).1.cache = s.cache.set (32 * i) 229
      ∧ (∀ k : Nat, k < 512 →
          (del input s).1.img (LBAToOffset s.f32 s.f32.BPB_RootClus + (k : Int))
            = (s.cache.set (32 * i) 229).getD k 0)
      ∧ (∀ a : Int,
          (a < LBAToOffset s.f32 s.f32.BPB_RootClus
            ∨ LBAToOffset s.f32 s.f32.BPB_RootClus + 512 ≤ a) →
          (del input s).1.img a = s.img a) := by
  unfold del
  rw [hfind]
  have hlen' : (s.cache.set (32 * i) 229).length = 512 := by
    rw [List.length_set]; exact hlen
  refine ⟨rfl, ?_, ?_⟩
  · intro k hk
    show writeBlockToImg s.img (LBAToOffset s.f32 s.f32.BPB_RootClus)
        (s.cache.set (32 * i) 229) _ = _
    unfold writeBlockToImg
    rw [hlen', if_pos (by constructor <;> omega)]
    congr 1
    omega
  · intro a ha
    show writeBlockToImg s.img (LBAToOffset s.f32 s.f32.BPB_RootClus)
        (s.cache.set (32 * i) 229) a = s.img a
    unfold writeBlockToImg
    rw [hlen', if_neg (by omega)]

/-- Witness for C7: deleting `BRAVO` on the concrete image. -/
theorem del_rewrites_whole_block_at_rootclus_witness :
    find_file tokBRAVO (openFat32File cImg).cache = some 1
      ∧ (openFat32File cImg).cache.length = 512
      ∧ ((del tokBRAVO (openFat32File cImg)).1.cache
            = (openFat32File cImg).cache.set 32 229
          ∧ (∀ k : Nat, k < 512 →
              (del tokBRAVO (openFat32File cImg)).1.img
                  (LBAToOffset (openFat32File cImg).f32
                    (openFat32File cImg).f32.BPB_RootClus + (k : Int))
                = ((openFat32File cImg).cache.set 32 229).getD k 0)
          ∧ (∀ a : Int,
              (a < LBAToOffset (openFat32File cImg).f32
                    (openFat32File cImg).f32.BPB_RootClus
                ∨ LBAToOffset (openFat32File cImg).f32
                    (openFat32File cImg).f32.BPB_RootClus + 512 ≤ a) →
              (del tokBRAVO (openFat32File cImg)).1.img a
                = (openFat32File cImg).img a)) :=
  ⟨by decide, by decide,
    del_rewrites_whole_block_at_rootclus tokBRAVO (openFat32File cImg) 1 (by decide) (by decide)⟩

/-! ### Claim C1 -/

/-- Claim C1 is violated by the source: `openFat32File` copies
`dir[0].DIR_Name` into every `originalFilenames` slot (its loop body
ignores the index), so on the concrete image — whose root holds `ALPHA`
(entry 0) and `BRAVO` (entry 1) — the resolvable name `BRAVO` is
tombstoned by `del` but `undel BRAVO` matches no original-name slot:
it reports not-found, the first name byte stays 0xE5 (not the recorded
byte 66), and `BRAVO` does not reappear in `ls`. -/
theorem del_undel_does_not_restore_bravo :
    find_file tokBRAVO (openFat32File cImg).cache = some 1
      ∧ lsIndices (openFat32File cImg).cache = [0, 1]
      ∧ (openFat32File cImg).cache.getD 32 0 = 66
      ∧ (openFat32File cImg).origNames.getD 1 [] = nameALPHA
      ∧ (undel tokBRAVO ((del tokBRAVO (openFat32File cImg)).1)).2 = false
      ∧ ((undel tokBRAVO ((del tokBRAVO (openFat32File cImg)).1)).1).cache.getD 32 0 = 229
      ∧ lsIndices ((undel tokBRAVO ((del tokBRAVO (openFat32File cImg)).1)).1).cache = [0] := by
  decide

/-! ### find_file characterization lemmas -/

/-- A successful `findFrom` scan returns the first matching index at or
after its start. -/
theorem findFrom_eq_some_least (input cache : List Nat) :
    ∀ (rem i k : Nat), findFrom input cache rem i = some k →
      i ≤ k ∧ k < i + rem ∧ compare_filename input (entryName cache k) = true
        ∧ ∀ j, i ≤ j → j < k → compare_filename input (entryName cache j) = false := by
  intro rem
  induction rem with
  | zero => intro i k h; simp [findFrom] at h
  | succ n ih =>
    intro i k h
    unfold findFrom at h
    by_cases hc : compare_filename input (entryName cache i) = true
    · rw [if_pos hc] at h
      cases h
      exact ⟨le_refl _, by omega, hc, fun j h1 h2 => by omega⟩
    · rw [if_neg hc] at h
      obtain ⟨h1, h2, h3, h4⟩ := ih (i + 1) k h
      refine ⟨by omega, by omega, h3, fun j hj1 hj2 => ?_⟩
      by_cases hji : j = i
      · subst hji; exact Bool.eq_false_iff.mpr hc
      · exact h4 j (by omega) hj2

/-- The scan `findFrom` finds the least match when there is one. -/
theorem findFrom_eq_some_of_least (input cache : List Nat) :
    ∀ (rem i k : Nat), i ≤ k → k < i + rem →
      compare_filename input (entryName cache k) = true →
      (∀ j, i ≤ j → j < k → compare_filename input (entryName cache j) = false) →
      findFrom input cache rem i = some k := by
  intro rem
  induction rem with
  | zero => intro i k h1 h2; omega
  | succ n ih =>
    intro i k h1 h2 h3 h4
    unfold findFrom
    by_cases hik : i = k
    · subst hik; rw [if_pos h3]
    · have hlt : i < k := by omega
      rw [if_neg]
      · exact ih (i + 1) k (by omega) (by omega) h3 (fun j hj1 hj2 => h4 j (by omega) hj2)
      · rw [h4 i (le_refl i) hlt]; simp

/-! ### Claim C9 -/

/-- Claim C9: name resolution scans cache indices 0 through 15 in order and
returns the smallest matching index; `stat` and `del` (and through the same
`find_file` call, `cd`, `get` and `read`) operate on that lowest-indexed
matching entry. -/
theorem find_file_picks_lowest_matching_index (input cache : List Nat) (i : Nat)
    (hi : i < 16)
    (hmatch : compare_filename input (entryName cache i) = true)
    (hleast : ∀ j, j < i → compare_filename input (entryName cache j) = false) :
    find_file input cache = some i
      ∧ (∀ k, find_file input cache = some k → k = i)
      ∧ stat input cache = some ⟨strncpyFixed (entryName cache i) 11, entryAttr cache i,
          entryFirstClusterHigh cache i, entryFirstClusterLow cache i, entryFileSize cache i⟩
      ∧ (∀ s : MfsState, s.cache = cache →
          (del input s).1.cache = cache.set (32 * i) 229) := by
  have hff : find_file input cache = some i :=
    findFrom_eq_some_of_least input cache 16 0 i (Nat.zero_le i) (by omega) hmatch
      (fun j _ hj => hleast j hj)
  refine ⟨hff, ?_, ?_, ?_⟩
  · intro k hk; rw [hff] at hk; cases hk; rfl
  · unfold stat; rw [hff]
  · intro s hs
    unfold del
    rw [hs, hff]

/-- A cache whose entries 0 and 1 both carry the name `ALPHA`. -/
def cacheDup : List Nat :=
  entryOf nameALPHA 32 ++ entryOf nameALPHA 32 ++ List.replicate 448 0

/-- A session state holding `cacheDup`. -/
def sDup : MfsState := ⟨cacheDup, List.replicate 16 nameALPHA, fW, imgW⟩

/-- Witness for C9: with two entries named `ALPHA`, resolution picks
index 0 and `del` tombstones entry 0. -/
theorem find_file_picks_lowest_matching_index_witness :
    (0 < 16 ∧ compare_filename tokALPHA (entryName cacheDup 0) = true)
      ∧ find_file tokALPHA cacheDup = some 0
      ∧ (∀ k, find_file tokALPHA cacheDup = some k → k = 0)
      ∧ stat tokALPHA cacheDup = some ⟨strncpyFixed (entryName cacheDup 0) 11,
          entryAttr cacheDup 0, entryFirstClusterHigh cacheDup 0,
          entryFirstClusterLow cacheDup 0, entryFileSize cacheDup 0⟩
      ∧ (∀ s : MfsState, s.cache = cacheDup →
          (del tokALPHA s).1.cache = cacheDup.set 0 229) :=
  ⟨⟨by decide, by decide⟩,
    find_file_picks_lowest_matching_index tokALPHA cacheDup 0 (by decide) (by decide)
      (fun j hj => absurd hj (Nat.not_lt_zero j))⟩

/-! ### Claim C10 -/

/-- Setting the attribute byte of any entry leaves every name field
unchanged. -/
theorem entryName_set_attr (cache : List Nat) (j a k : Nat) :
    entryName (cache.set (32 * j + 11) a) k = entryName cache k := by
  unfold entryName
  apply List.map_congr_left
  intro x hx
  rw [List.mem_range] at hx
  rw [List.getD_eq_getElem?_getD, List.getD_eq_getElem?_getD,
    List.getElem?_set_ne (by omega)]

/-- The scan `findFrom` only looks at the name fields of the cache. -/
theorem findFrom_congr_names (input c1 c2 : List Nat)
    (h : ∀ k, entryName c1 k = entryName c2 k) :
    ∀ rem i, findFrom input c1 rem i = findFrom input c2 rem i := by
  intro rem
  induction rem with
  | zero => intro i; rfl
  | succ n ih =>
    intro i
    unfold findFrom
    rw [h i, ih (i + 1)]

/-- Claim C10: name resolution applies no attribute or tombstone filter.
Changing any attribute byte does not change what `find_file` returns, and
an entry that `ls` hides (its attribute outside {0x01, 0x10, 0x20}) is
still resolvable: `stat` prints it and `del` tombstones it rather than
reporting not-found. -/
theorem find_file_ignores_attr_and_tombstone (input cache : List Nat) (j a i : Nat)
    (hfind : find_file input cache = some i)
    (hhidden : attrVisible (entryAttr cache i) = false) :
    find_file input (cache.set (32 * j + 11) a) = find_file input cache
      ∧ i ∉ lsIndices cache
      ∧ stat input cache ≠ none
      ∧ (∀ s : MfsState, s.cache = cache →
          (del input s).1.cache = cache.set (32 * i) 229 ∧ (del input s).2 = true) := by
  refine ⟨?_, ?_, ?_, ?_⟩
  · unfold find_file
    exact findFrom_congr_names input _ cache (fun k => entryName_set_attr cache j a k) 16 0
  · intro hmem
    rw [lsIndices, List.mem_filter] at hmem
    rw [Bool.and_eq_true] at hmem
    rw [hmem.2.1] at hhidden
    cases hhidden
  · unfold stat
    rw [hfind]
    simp
  · intro s hs
    unfold del
    rw [hs, hfind]
    exact ⟨rfl, rfl⟩

/-- A cache whose entry 0 is an all-zero terminator slot and whose entry 1
is a volume label (`LABEL`, attribute 0x08) — hidden from `ls` but sitting
past the terminator. -/
def cacheVol : List Nat :=
  List.replicate 32 0 ++ entryOf [76, 65, 66, 69, 76, 32, 32, 32, 32, 32, 32] 8
    ++ List.replicate 448 0

/-- Witness for C10: the hidden volume label at index 1 of `cacheVol` is
resolved by the token `LABEL`. -/
theorem find_file_ignores_attr_and_tombstone_witness :
    find_file [76, 65, 66, 69, 76] cacheVol = some 1
      ∧ attrVisible (entryAttr cacheVol 1) = false
      ∧ (find_file [76, 65, 66, 69, 76] (cacheVol.set 43 7)
            = find_file [76, 65, 66, 69, 76] cacheVol
          ∧ 1 ∉ lsIndices cacheVol
          ∧ stat [76, 65, 66, 69, 76] cacheVol ≠ none
          ∧ (∀ s : MfsState, s.cache = cacheVol →
              (del [76, 65, 66, 69, 76] s).1.cache = cacheVol.set 32 229
                ∧ (del [76, 65, 66, 69, 76] s).2 = true)) :=
  ⟨by decide, by decide,
    find_file_ignores_attr_and_tombstone [76, 65, 66, 69, 76] cacheVol 1 7 1
      (by decide) (by decide)⟩

/-! ### Claim C8 -/

/-- When no index in `l` passes the `undel` match, the scan leaves its
accumulator untouched. -/
theorem foldl_undelStep_id (input : List Nat) (orig : List (List Nat)) (f : F32Info)
    (cache : List Nat) (img : Int → Nat) (l : List Nat)
    (h : ∀ i ∈ l, ¬(attrVisible (entryAttr cache i) = true
      ∧ compare_filename input (orig.getD i []) = true)) :
    l.foldl (undelStep input orig f) (cache, img, false) = (cache, img, false) := by
  induction l with
  | nil => rfl
  | cons x xs ih =>
    rw [List.foldl_cons]
    have hstep : undelStep input orig f (cache, img, false) x = (cache, img, false) := by
      unfold undelStep
      rw [if_neg]
      rw [Bool.and_eq_true]
      exact h x (List.mem_cons_self x xs)
    rw [hstep]
    exact ih (fun i hi => h i (List.mem_cons_of_mem x hi))

/-- Claim C8: when a name does not resolve, each of `stat`, `cd`, `get`,
`read` and `del` reports not-found and leaves the directory cache, the
geometry, the original-name memory and the image unchanged; likewise
`undel` when its scan (over the original names, with the attribute filter)
matches nothing. -/
theorem notfound_reports_and_preserves_state (input : List Nat) (pos len : Nat)
    (s : MfsState)
    (hfind : find_file input s.cache = none)
    (hundel : ∀ i, i < 16 → ¬(attrVisible (entryAttr s.cache i) = true
      ∧ compare_filename input (s.origNames.getD i []) = true)) :
    stat input s.cache = none
      ∧ cd input s = (s, CdMsg.notFound)
      ∧ getFile input s = none
      ∧ read_file input pos len s = none
      ∧ del input s = (s, false)
      ∧ undel input s = (s, false) := by
  refine ⟨?_, ?_, ?_, ?_, ?_, ?_⟩
  · unfold stat; rw [hfind]
  · unfold cd; rw [hfind]
  · unfold getFile; rw [hfind]
  · unfold read_file; rw [hfind]
  · unfold del; rw [hfind]
  · unfold undel
    rw [foldl_undelStep_id input s.origNames s.f32 s.cache s.img (List.range 16)
      (fun i hi => hundel i (List.mem_range.mp hi))]

/-- Witness for C8: the token `CHARLIE` resolves nowhere on the concrete
image. -/
theorem notfound_reports_and_preserves_state_witness :
    find_file [67, 72, 65, 82, 76, 73, 69] (openFat32File cImg).cache = none
      ∧ (∀ i, i < 16 → ¬(attrVisible (entryAttr (openFat32File cImg).cache i) = true
          ∧ compare_filename [67, 72, 65, 82, 76, 73, 69]
              ((openFat32File cImg).origNames.getD i []) = true))
      ∧ (stat [67, 72, 65, 82, 76, 73, 69] (openFat32File cImg).cache = none
          ∧ cd [67, 72, 65, 82, 76, 73, 69] (openFat32File cImg)
              = (openFat32File cImg, CdMsg.notFound)
          ∧ getFile [67, 72, 65, 82, 76, 73, 69] (openFat32File cImg) = none
          ∧ read_file [67, 72, 65, 82, 76, 73, 69] 5 9 (openFat32File cImg) = none
          ∧ del [67, 72, 65, 82, 76, 73, 69] (openFat32File cImg)
              = (openFat32File cImg, false)
          ∧ undel [67, 72, 65, 82, 76, 73, 69] (openFat32File cImg)
              = (openFat32File cImg, false)) :=
  ⟨by decide, by decide,
    notfound_reports_and_preserves_state [67, 72, 65, 82, 76, 73, 69] 5 9
      (openFat32File cImg) (by decide) (by decide)⟩


/-! ### Claim C6 -/

/-- Walking one step first is walking one step later. -/
theorem chainFrom_succ_front (img : Int → Nat) (f : F32Info) (c : Int) :
    ∀ k, chainFrom img f c (k + 1)
      = chainFrom img f (NextLB img f (intToUint32 c)) k := by
  intro k
  induction k with
  | zero => rfl
  | succ m ih =>
    show NextLB img f (intToUint32 (chainFrom img f c (m + 1))) = _
    rw [ih]
    rfl

/-- The sector-skipping loop of `read_file` computes division of the
offset by the sector size: it leaves `pos % S` and lands on the
`pos / S`-th cluster of the chain.  Any fuel above `pos` is enough. -/
theorem skipLoop_eq_divmod (img : Int → Nat) (f : F32Info) (S : Nat) (hS : 0 < S) :
    ∀ (fuel pos : Nat) (sector : Int), pos < fuel →
      skipLoop img f S fuel pos sector = (pos % S, chainFrom img f sector (pos / S)) := by
  intro fuel
  induction fuel with
  | zero => intro pos sector h; omega
  | succ n ih =>
    intro pos sector h
    unfold skipLoop
    by_cases hc : S ≤ pos
    · rw [if_pos ⟨hS, hc⟩, ih (pos - S) _ (by omega)]
      have h1 : (pos - S) % S = pos % S := (Nat.mod_eq_sub_mod hc).symm
      have h2 : pos / S = (pos - S) / S + 1 := Nat.div_eq_sub_div hS hc
      rw [h1, h2, chainFrom_succ_front]
    · rw [if_neg (fun hx => hc hx.2)]
      rw [Nat.mod_eq_of_lt (by omega), Nat.div_eq_of_lt (by omega)]
      rfl

/-- The byte-emitting loop of `read_file` in closed form: starting at
within-sector position `pos + idx` of `sector`, the `j`-th emitted byte
lives at offset `(pos + idx + j) % S` of the `(pos + idx + j) / S`-th
cluster of the chain from `sector`. -/
theorem emitLoop_closed_form (img : Int → Nat) (f : F32Info) (S : Nat) (hS : 0 < S) :
    ∀ (n : Nat) (sector : Int) (pos idx : Nat), pos + idx ≤ S →
      emitLoop img f S n sector pos idx =
        (List.range n).map (fun j =>
          imgByte img (LBAToOffset f (chainFrom img f sector ((pos + idx + j) / S))
            + ((pos + idx + j) % S : Nat))) := by
  intro n
  induction n with
  | zero => intro sector pos idx h; rfl
  | succ m ih =>
    intro sector pos idx h
    unfold emitLoop
    rw [List.range_succ_eq_map, List.map_cons, List.map_map]
    by_cases hc : pos + idx = S
    · rw [if_pos hc]
      congr 1
      · show imgByte img (LBAToOffset f (NextLB img f (intToUint32 sector)))
            = imgByte img (LBAToOffset f (chainFrom img f sector ((pos + idx + 0) / S))
                + ((pos + idx + 0) % S : Nat))
        have e1 : pos + idx + 0 = S := by omega
        rw [e1, Nat.div_self hS, Nat.mod_self]
        simp [chainFrom]
      · rw [ih (NextLB img f (intToUint32 sector)) 0 1 (by omega)]
        apply List.map_congr_left
        intro j hj
        show imgByte img (LBAToOffset f (chainFrom img f (NextLB img f (intToUint32 sector))
                ((0 + 1 + j) / S)) + ((0 + 1 + j) % S : Nat))
            = imgByte img (LBAToOffset f (chainFrom img f sector ((pos + idx + (j + 1)) / S))
                + ((pos + idx + (j + 1)) % S : Nat))
        have e2 : pos + idx + (j + 1) = (1 + j) + S := by omega
        have e3 : 0 + 1 + j = 1 + j := by omega
        rw [e2, e3, Nat.add_div_right _ hS, Nat.add_mod_right, chainFrom_succ_front]
    · rw [if_neg hc]
      congr 1
      · show imgByte img (LBAToOffset f sector + ((pos + idx : Nat) : Int))
            = imgByte img (LBAToOffset f (chainFrom img f sector ((pos + idx + 0) / S))
                + ((pos + idx + 0) % S : Nat))
        have e1 : pos + idx + 0 = pos + idx := by omega
        rw [e1, Nat.div_eq_of_lt (by omega), Nat.mod_eq_of_lt (by omega)]
        rfl
      · rw [ih sector pos (idx + 1) (by omega)]
        apply List.map_congr_left
        intro j hj
        show imgByte img (LBAToOffset f (chainFrom img f sector ((pos + (idx + 1) + j) / S))
              + ((pos + (idx + 1) + j) % S : Nat))
            = imgByte img (LBAToOffset f (chainFrom img f sector ((pos + idx + (j + 1)) / S))
                + ((pos + idx + (j + 1)) % S : Nat))
        have e4 : pos + (idx + 1) + j = pos + idx + (j + 1) := by omega
        rw [e4]

/-- The output of `read` as the specification describes it: advance the
cluster via `nextCluster` once per whole sector contained in the offset
(leaving `pos % S`), then emit exactly `len` bytes that walk the cluster
chain from there — byte `j` comes from offset `(pos % S + j) % S` of the
`(pos % S + j) / S`-th cluster — and terminate with a newline, with no
clipping at the file size. -/
def readSpecOutput (img : Int → Nat) (f : F32Info) (S : Nat) (c0 : Int)
    (pos len : Nat) : List Nat :=
  ((List.range len).map (fun j =>
    imgByte img
      (LBAToOffset f (chainFrom img f (chainFrom img f c0 (pos / S)) ((pos % S + j) / S))
        + ((pos % S + j) % S : Nat)))) ++ [10]

/-- Claim C6: for every resolvable name and every offset and length,
`read(name, offset, length)` first walks the chain while the offset
covers whole sectors, then emits exactly `length` bytes from
`lbaToOffset(cluster) + remaining offset`, advancing to `nextCluster` and
re-seeking to its start whenever the within-sector index reaches the
sector size, and ends with a newline; nothing clips at `fileSize` (the
conclusion holds for every `len`, and the output length is `len + 1`). -/
theorem read_file_walks_chain_and_appends_newline (input : List Nat) (pos len : Nat)
    (s : MfsState) (i : Nat)
    (hfind : find_file input s.cache = some i)
    (hS : 0 < sectorSizeNat s.f32) :
    read_file input pos len s =
        some (readSpecOutput s.img s.f32 (sectorSizeNat s.f32)
          ((entryFirstClusterLow s.cache i : Int)) pos len)
      ∧ (readSpecOutput s.img s.f32 (sectorSizeNat s.f32)
          ((entryFirstClusterLow s.cache i : Int)) pos len).length = len + 1
      ∧ (readSpecOutput s.img s.f32 (sectorSizeNat s.f32)
          ((entryFirstClusterLow s.cache i : Int)) pos len).getLastD 0 = 10 := by
  refine ⟨?_, ?_, ?_⟩
  · unfold read_file
    rw [hfind]
    show some (emitLoop s.img s.f32 (sectorSizeNat s.f32) len
        (skipLoop s.img s.f32 (sectorSizeNat s.f32) (pos + 1) pos
          ((entryFirstClusterLow s.cache i : Int))).2
        (skipLoop s.img s.f32 (sectorSizeNat s.f32) (pos + 1) pos
          ((entryFirstClusterLow s.cache i : Int))).1 0 ++ [10]) = _
    rw [skipLoop_eq_divmod s.img s.f32 (sectorSizeNat s.f32) hS (pos + 1) pos
      ((entryFirstClusterLow s.cache i : Int)) (by omega)]
    show some (emitLoop s.img s.f32 (sectorSizeNat s.f32) len
        (chainFrom s.img s.f32 ((entryFirstClusterLow s.cache i : Int))
          (pos / sectorSizeNat s.f32))
        (pos % sectorSizeNat s.f32) 0 ++ [10]) = _
    rw [emitLoop_closed_form s.img s.f32 (sectorSizeNat s.f32) hS len
      (chainFrom s.img s.f32 ((entryFirstClusterLow s.cache i : Int))
        (pos / sectorSizeNat s.f32))
      (pos % sectorSizeNat s.f32) 0 (le_of_lt (Nat.mod_lt pos hS))]
    unfold readSpecOutput
    simp only [Nat.add_zero]
  · unfold readSpecOutput
    rw [List.length_append, List.length_map, List.length_range]
    rfl
  · unfold readSpecOutput
    exact List.getLastD_concat _ _ _

/-- Witness for C6: reading 700 bytes at offset 600 of `BRAVO` on the
concrete image. -/
theorem read_file_walks_chain_and_appends_newline_witness :
    find_file tokBRAVO (openFat32File cImg).cache = some 1
      ∧ 0 < sectorSizeNat (openFat32File cImg).f32
      ∧ (read_file tokBRAVO 600 700 (openFat32File cImg) =
            some (readSpecOutput (openFat32File cImg).img (openFat32File cImg).f32
              (sectorSizeNat (openFat32File cImg).f32)
              ((entryFirstClusterLow (openFat32File cImg).cache 1 : Int)) 600 700)
          ∧ (readSpecOutput (openFat32File cImg).img (openFat32File cImg).f32
              (sectorSizeNat (openFat32File cImg).f32)
              ((entryFirstClusterLow (openFat32File cImg).cache 1 : Int)) 600 700).length
              = 700 + 1
          ∧ (readSpecOutput (openFat32File cImg).img (openFat32File cImg).f32
              (sectorSizeNat (openFat32File cImg).f32)
              ((entryFirstClusterLow (openFat32File cImg).cache 1 : Int)) 600 700).getLastD 0
              = 10) :=
  ⟨by decide, by decide,
    read_file_walks_chain_and_appends_newline tokBRAVO 600 700 (openFat32File cImg) 1
      (by decide) (by decide)⟩

/-! ### Claim C5 -/

/-- A `takeWhile` runs past a prefix on which the predicate holds. -/
theorem takeWhile_append_all {p : Nat → Bool} :
    ∀ (xs ys : List Nat), (∀ b ∈ xs, p b = true) →
      (xs ++ ys).takeWhile p = xs ++ ys.takeWhile p := by
  intro xs
  induction xs with
  | nil => intro ys h; rfl
  | cons a l ih =>
    intro ys h
    rw [List.cons_append, List.takeWhile_cons, if_pos (h a (List.mem_cons_self a l)),
      ih ys (fun b hb => h b (List.mem_cons_of_mem a hb))]
    rfl

/-- A `takeWhile` keeps a list on which the predicate holds. -/
theorem takeWhile_all_eq_self {p : Nat → Bool} (xs : List Nat)
    (h : ∀ b ∈ xs, p b = true) : xs.takeWhile p = xs := by
  have := takeWhile_append_all (p := p) xs [] h
  simpa using this

/-- A `dropWhile` drops a prefix on which the predicate holds. -/
theorem dropWhile_append_all {p : Nat → Bool} :
    ∀ (xs ys : List Nat), (∀ b ∈ xs, p b = true) →
      (xs ++ ys).dropWhile p = ys.dropWhile p := by
  intro xs
  induction xs with
  | nil => intro ys h; rfl
  | cons a l ih =>
    intro ys h
    rw [List.cons_append, List.dropWhile_cons, if_pos (h a (List.mem_cons_self a l))]
    exact ih ys (fun b hb => h b (List.mem_cons_of_mem a hb))

/-- On NUL-free lists of the right length, `strncmp`-equality is plain
byte-for-byte equality. -/
theorem strncmpEq_eq_beq :
    ∀ (n : Nat) (l1 l2 : List Nat), l1.length = n → l2.length = n →
      (∀ b ∈ l1, b ≠ 0) → strncmpEq l1 l2 n = (l1 == l2) := by
  intro n
  induction n with
  | zero =>
    intro l1 l2 h1 h2 h3
    rw [List.length_eq_zero] at h1 h2
    subst h1; subst h2
    rfl
  | succ m ih =>
    intro l1 l2 h1 h2 h3
    cases l1 with
    | nil => simp at h1
    | cons a as =>
      cases l2 with
      | nil => simp at h2
      | cons c cs =>
        have ha : a ≠ 0 := h3 a (List.mem_cons_self a as)
        show (if a = c then (if a = 0 then true else strncmpEq as cs m) else false)
            = (a == c && as == cs)
        by_cases hac : a = c
        · rw [if_pos hac, if_neg ha,
            ih as cs (by simpa using h1) (by simpa using h2)
              (fun b hb => h3 b (List.mem_cons_of_mem a hb))]
          subst hac
          simp
        · rw [if_neg hac]
          have : (a == c) = false := by simpa using hac
          rw [this, Bool.false_and]

/-- The `toupper` of a nonzero byte is nonzero. -/
theorem toupperB_ne_zero {b : Nat} (h : b ≠ 0) : toupperB b ≠ 0 := by
  unfold toupperB
  split <;> omega

/-- Modelled from the spec (§4.5 / claim C5): build an 11-byte buffer of
ASCII spaces, split the token at the first dot, copy at most 8 bytes of
the basename into positions 0..7 and at most 3 bytes of the extension
into positions 8..10, and uppercase (ASCII) all 11 bytes. -/
def specNormalize (input : List Nat) : List Nat :=
  ((((input.takeWhile (fun b => b != 46)).take 8)
      ++ List.replicate (8 - ((input.takeWhile (fun b => b != 46)).take 8).length) 32)
    ++ ((((input.dropWhile (fun b => b != 46)).drop 1).take 3)
      ++ List.replicate (3 - (((input.dropWhile (fun b => b != 46)).drop 1).take 3).length) 32)).map
    toupperB

/-- The matcher exactly as claim C5 states it: a match holds iff the
normalized form equals the on-disk 11-byte name field byte-for-byte. -/
def claimMatch (input imgName : List Nat) : Bool := specNormalize input == imgName

/-- Claim C5 is refuted at the 9-byte token `ABCDEFGHI` against the
on-disk name `ABCDEFGHI  `: the claimed matcher keeps at most 8 basename
bytes and rejects, but `compare_filename` copies the whole basename
(`strncpy(expanded_name, token, strlen(token))` has no 8-byte cap) and
accepts. -/
theorem compare_filename_copies_whole_basename :
    compare_filename [65, 66, 67, 68, 69, 70, 71, 72, 73]
        [65, 66, 67, 68, 69, 70, 71, 72, 73, 32, 32] = true
      ∧ claimMatch [65, 66, 67, 68, 69, 70, 71, 72, 73]
        [65, 66, 67, 68, 69, 70, 71, 72, 73, 32, 32] = false := by
  decide

/-- On a dot-free token the first `strtok` token is the whole input and no
extension token exists. -/
theorem strtok_of_dotfree (base : List Nat) (hbne : base ≠ [])
    (hb46 : ∀ b ∈ base, b ≠ 46) :
    strtokBase base = base ∧ strtokExt base = [] := by
  have hF : ∀ b ∈ base, ((b != 46) : Bool) = true := by
    intro b hbmem
    simpa using hb46 b hbmem
  cases base with
  | nil => exact absurd rfl hbne
  | cons b0 bs =>
    have hb0 : b0 ≠ 46 := hb46 b0 (List.mem_cons_self b0 bs)
    have hdrop : (b0 :: bs).dropWhile (fun b => b == 46) = b0 :: bs := by
      rw [List.dropWhile_cons, if_neg (by simpa using hb0)]
    have hbase : strtokBase (b0 :: bs) = b0 :: bs := by
      rw [strtokBase, hdrop]
      exact takeWhile_all_eq_self _ hF
    refine ⟨hbase, ?_⟩
    rw [strtokExt, hdrop, hbase, List.drop_eq_nil_of_le (by omega)]
    rfl

/-- On a `base.ext` token (dot-free nonempty `base`, dot-free nonempty
`ext`) the two `strtok` tokens are `base` and `ext`. -/
theorem strtok_of_base_ext (base ext : List Nat) (hbne : base ≠ []) (hene : ext ≠ [])
    (hb46 : ∀ b ∈ base, b ≠ 46) (he46 : ∀ b ∈ ext, b ≠ 46) :
    strtokBase (base ++ 46 :: ext) = base ∧ strtokExt (base ++ 46 :: ext) = ext := by
  have hFb : ∀ b ∈ base, ((b != 46) : Bool) = true := by
    intro b hbmem; simpa using hb46 b hbmem
  have hFe : ∀ b ∈ ext, ((b != 46) : Bool) = true := by
    intro b hbmem; simpa using he46 b hbmem
  have hdrop : (base ++ 46 :: ext).dropWhile (fun b => b == 46) = base ++ 46 :: ext := by
    cases base with
    | nil => exact absurd rfl hbne
    | cons b0 bs =>
      rw [List.cons_append, List.dropWhile_cons,
        if_neg (by simpa using hb46 b0 (List.mem_cons_self b0 bs))]
  have hbase : strtokBase (base ++ 46 :: ext) = base := by
    rw [strtokBase, hdrop, takeWhile_append_all base (46 :: ext) hFb,
      List.takeWhile_cons, if_neg (by simp)]
    exact List.append_nil base
  have hrest : (base ++ 46 :: ext).drop (base.length + 1) = ext := by
    have hsplit : base ++ 46 :: ext = (base ++ [46]) ++ ext := by
      rw [List.append_assoc]; rfl
    have hlen : (base ++ [46]).length = base.length + 1 := by simp
    rw [hsplit, ← hlen, List.drop_left]
  refine ⟨hbase, ?_⟩
  rw [strtokExt, hdrop, hbase, hrest]
  cases ext with
  | nil => exact absurd rfl hene
  | cons e0 es =>
    rw [List.dropWhile_cons, if_neg (by simpa using he46 e0 (List.mem_cons_self e0 es))]
    exact takeWhile_all_eq_self _ hFe

/-- The `expanded_name` buffer for a dot-free token: the whole token followed by
spaces (no 8-byte cap on the basename). -/
theorem expandedName_of_dotfree (base : List Nat) (hbne : base ≠ [])
    (hb46 : ∀ b ∈ base, b ≠ 46) :
    expandedName base = base ++ List.replicate (12 - base.length) 32 := by
  obtain ⟨hbase, hext⟩ := strtok_of_dotfree base hbne hb46
  rw [expandedName, hext]
  rw [if_pos (show (([] : List Nat).isEmpty = true) from rfl), hbase, writeBytes,
    List.take_zero, List.drop_replicate]
  simp

/-- The `expanded_name` buffer for a `base.ext` token with `base` at most 8 bytes and
a NUL-free extension of at least 3 bytes: basename, space padding to
position 8, the first three extension bytes, and the leftover space at
position 11. -/
theorem expandedName_of_base_ext (base ext : List Nat) (hbne : base ≠ [])
    (hblen : base.length ≤ 8) (hb46 : ∀ b ∈ base, b ≠ 46)
    (he : ∀ b ∈ ext, b ≠ 0 ∧ b ≠ 46) (helen : 3 ≤ ext.length) :
    expandedName (base ++ 46 :: ext)
      = (base ++ List.replicate (8 - base.length) 32) ++ (ext.take 3 ++ [32]) := by
  have hene : ext ≠ [] := by
    intro hx
    rw [hx] at helen
    simp at helen
  obtain ⟨hbase, hext⟩ :=
    strtok_of_base_ext base ext hbne hene hb46 (fun b hb => (he b hb).2)
  have hemp : ext.isEmpty = false := by
    cases ext with
    | nil => exact absurd rfl hene
    | cons a l => rfl
  have hcpy : strncpyFixed ext 3 = ext.take 3 := by
    rw [strncpyFixed, takeWhile_all_eq_self ext (fun b hb => by simpa using (he b hb).1),
      List.take_append_eq_append_take]
    have h30 : 3 - ext.length = 0 := by omega
    rw [h30, List.take_zero, List.append_nil]
  have hbuf1 : writeBytes (List.replicate 12 32) 0 base
      = base ++ List.replicate (12 - base.length) 32 := by
    rw [writeBytes, List.take_zero, List.drop_replicate]
    simp
  have hlen3 : (ext.take 3).length = 3 := by
    rw [List.length_take]
    exact min_eq_left helen
  rw [expandedName, hext, hemp, if_neg Bool.false_ne_true, hbase, hcpy, hbuf1,
    writeBytes, hlen3]
  have htake8 : (base ++ List.replicate (12 - base.length) 32).take 8
      = base ++ List.replicate (8 - base.length) 32 := by
    rw [List.take_append_eq_append_take, List.take_all_of_le (by omega),
      List.take_replicate]
    congr 2
    omega
  have hdrop11 : (base ++ List.replicate (12 - base.length) 32).drop 11 = [32] := by
    rw [List.drop_append_eq_append_drop, List.drop_eq_nil_of_le (by omega),
      List.drop_replicate]
    have h1 : 12 - base.length - (11 - base.length) = 1 := by omega
    rw [h1]
    rfl
  rw [htake8, hdrop11]
  simp [List.append_assoc]

/-- The spec's normal form of a dot-free token of at most 8 bytes. -/
theorem specNormalize_of_dotfree (base : List Nat) (hbne : base ≠ [])
    (hblen : base.length ≤ 8) (hb46 : ∀ b ∈ base, b ≠ 46) :
    specNormalize base = (base ++ List.replicate (11 - base.length) 32).map toupperB := by
  have hFb : ∀ b ∈ base, ((b != 46) : Bool) = true := by
    intro b hbmem; simpa using hb46 b hbmem
  have h1 : base.takeWhile (fun b => b != 46) = base := takeWhile_all_eq_self _ hFb
  have h2 : base.dropWhile (fun b => b != 46) = [] := by
    have := dropWhile_append_all base [] hFb
    simpa using this
  rw [specNormalize, h1, h2]
  simp only [List.drop_nil, List.take_nil, List.length_nil, Nat.sub_zero, List.nil_append]
  rw [List.take_all_of_le hblen, List.append_assoc, ← List.replicate_add]
  congr 3
  omega

/-- The spec's normal form of a `base.ext` token with `base` at most
8 bytes and `ext` at least 3 bytes. -/
theorem specNormalize_of_base_ext (base ext : List Nat) (hbne : base ≠ [])
    (hblen : base.length ≤ 8) (hb46 : ∀ b ∈ base, b ≠ 46)
    (he46 : ∀ b ∈ ext, b ≠ 46) (helen : 3 ≤ ext.length) :
    specNormalize (base ++ 46 :: ext)
      = ((base ++ List.replicate (8 - base.length) 32) ++ ext.take 3).map toupperB := by
  have hFb : ∀ b ∈ base, ((b != 46) : Bool) = true := by
    intro b hbmem; simpa using hb46 b hbmem
  have h1 : (base ++ 46 :: ext).takeWhile (fun b => b != 46) = base := by
    rw [takeWhile_append_all base (46 :: ext) hFb, List.takeWhile_cons, if_neg (by simp)]
    exact List.append_nil base
  have h2 : (base ++ 46 :: ext).dropWhile (fun b => b != 46) = 46 :: ext := by
    rw [dropWhile_append_all base (46 :: ext) hFb, List.dropWhile_cons, if_neg (by simp)]
  have hlen3 : (ext.take 3).length = 3 := by
    rw [List.length_take]
    exact min_eq_left helen
  rw [specNormalize, h1, h2]
  simp only [List.drop_succ_cons, List.drop_zero]
  rw [List.take_all_of_le hblen, hlen3]
  norm_num

/-- Claim C5 amended: the claimed normalize-and-compare description of the
name matcher is correct for tokens whose basename is nonempty, dot-free and
at most 8 bytes and whose extension — when present — is dot-free and at
least 3 bytes (only its first 3 bytes are used); all bytes nonzero, with an
11-byte on-disk name field.  Outside this scope the source diverges from
the claim: the basename is copied without the 8-byte cap, and an extension
shorter than 3 bytes is NUL-padded by `strncpy` instead of space-padded. -/
theorem compare_filename_follows_claim_on_83_tokens
    (base ext imgName : List Nat)
    (hbne : base ≠ []) (hblen : base.length ≤ 8)
    (hb : ∀ b ∈ base, b ≠ 0 ∧ b ≠ 46)
    (he : ∀ b ∈ ext, b ≠ 0 ∧ b ≠ 46) (helen : 3 ≤ ext.length)
    (hImg : imgName.length = 11) :
    compare_filename base imgName = claimMatch base imgName
      ∧ compare_filename (base ++ 46 :: ext) imgName
          = claimMatch (base ++ 46 :: ext) imgName := by
  constructor
  · have hguard1 : strncmpEq base [46, 46] 2 = false := by
      cases base with
      | nil => exact absurd rfl hbne
      | cons b0 bs =>
        show (if b0 = 46 then (if b0 = 0 then true else strncmpEq bs [46] 1) else false)
            = false
        rw [if_neg (hb b0 (List.mem_cons_self b0 bs)).2]
    rw [compare_filename, hguard1, if_neg Bool.false_ne_true,
      expandedName_of_dotfree base hbne (fun b hbm => (hb b hbm).2)]
    have htake11 : (base ++ List.replicate (12 - base.length) 32).take 11
        = base ++ List.replicate (11 - base.length) 32 := by
      rw [List.take_append_eq_append_take, List.take_all_of_le (by omega),
        List.take_replicate]
      congr 2
      omega
    rw [htake11, claimMatch,
      specNormalize_of_dotfree base hbne hblen (fun b hbm => (hb b hbm).2)]
    apply strncmpEq_eq_beq
    · rw [List.length_map, List.length_append, List.length_replicate]
      omega
    · exact hImg
    · intro b hbm
      rw [List.mem_map] at hbm
      obtain ⟨a, ha, rfl⟩ := hbm
      apply toupperB_ne_zero
      rw [List.mem_append] at ha
      cases ha with
      | inl hmem => exact (hb a hmem).1
      | inr hmem =>
        have := List.eq_of_mem_replicate hmem
        omega
  · have hguard2 : strncmpEq (base ++ 46 :: ext) [46, 46] 2 = false := by
      cases base with
      | nil => exact absurd rfl hbne
      | cons b0 bs =>
        show (if b0 = 46 then (if b0 = 0 then true
              else strncmpEq (bs ++ 46 :: ext) [46] 1) else false) = false
        rw [if_neg (hb b0 (List.mem_cons_self b0 bs)).2]
    rw [compare_filename, hguard2, if_neg Bool.false_ne_true,
      expandedName_of_base_ext base ext hbne hblen (fun b hbm => (hb b hbm).2) he helen]
    have hlen3 : (ext.take 3).length = 3 := by
      rw [List.length_take]
      exact min_eq_left helen
    have hlenA : (base ++ List.replicate (8 - base.length) 32).length = 8 := by
      rw [List.length_append, List.length_replicate]
      omega
    have htake11 : ((base ++ List.replicate (8 - base.length) 32)
          ++ (ext.take 3 ++ [32])).take 11
        = (base ++ List.replicate (8 - base.length) 32) ++ ext.take 3 := by
      rw [List.take_append_eq_append_take, List.take_all_of_le (by omega), hlenA]
      norm_num
      rw [List.take_append_eq_append_take, List.take_all_of_le (by omega), hlen3]
      norm_num
    rw [htake11, claimMatch,
      specNormalize_of_base_ext base ext hbne hblen (fun b hbm => (hb b hbm).2)
        (fun b hbm => (he b hbm).2) helen]
    apply strncmpEq_eq_beq
    · rw [List.length_map, List.length_append, hlenA, hlen3]
    · exact hImg
    · intro b hbm
      rw [List.mem_map] at hbm
      obtain ⟨a, ha, rfl⟩ := hbm
      apply toupperB_ne_zero
      rw [List.mem_append] at ha
      cases ha with
      | inl hmem =>
        rw [List.mem_append] at hmem
        cases hmem with
        | inl hmem2 => exact (hb a hmem2).1
        | inr hmem2 =>
          have := List.eq_of_mem_replicate hmem2
          omega
      | inr hmem => exact (he a (List.mem_of_mem_take hmem)).1

/-- Witness for the amended C5 at `FOO` / `FOO.TXT` against the on-disk
names they normalize to. -/
theorem compare_filename_follows_claim_on_83_tokens_witness :
    ([70, 79, 79] ≠ ([] : List Nat)) ∧ ([70, 79, 79] : List Nat).length ≤ 8
      ∧ (3 ≤ ([84, 88, 84] : List Nat).length)
      ∧ ([70, 79, 79, 32, 32, 32, 32, 32, 84, 88, 84] : List Nat).length = 11
      ∧ (compare_filename [70, 79, 79] [70, 79, 79, 32, 32, 32, 32, 32, 84, 88, 84]
          = claimMatch [70, 79, 79] [70, 79, 79, 32, 32, 32, 32, 32, 84, 88, 84]
        ∧ compare_filename ([70, 79, 79] ++ 46 :: [84, 88, 84])
            [70, 79, 79, 32, 32, 32, 32, 32, 84, 88, 84]
          = claimMatch ([70, 79, 79] ++ 46 :: [84, 88, 84])
            [70, 79, 79, 32, 32, 32, 32, 32, 84, 88, 84]) :=
  ⟨by decide, by decide, by decide, by decide,
    compare_filename_follows_claim_on_83_tokens [70, 79, 79] [84, 88, 84]
      [70, 79, 79, 32, 32, 32, 32, 32, 84, 88, 84]
      (by decide) (by decide) (by decide) (by decide) (by decide) (by decide)⟩
